import Mathlib

/-!
Verification of the vsm repository (LDA collapsed Gibbs sampling toolkit)
against its natural-language specification.

The development shallowly embeds the Python source:

* `mp_split_ls` (src/vsm/__init__.py) — the worker-pool document splitter,
  built on numpy's `array_split`;
* `CorpusSent` (src/vsm/extensions/ldasentences.py) — save/load,
  apply_stoplist, sent_int;
* the `LdaCgsMulti` model itself (vsm/model/ldacgsmulti.py) is not part of
  the provided sources, only its unit tests are; its serializer, trainer and
  sampling kernel are modelled from the specification where a claim needs
  them, and each such definition is marked `Modelled from the spec:`.

Machine floats in the source are embedded as rationals (ℚ); numpy integer
arrays as lists of naturals; count matrices as functions `Nat → Nat → ℤ`.
-/

namespace Vsm

/-! ## mp_split_ls (src/vsm/__init__.py, lines 291-310)

`np.array_split(ls, n)` splits a length-`L` sequence into `n` contiguous
sections: the first `L % n` sections have size `L / n + 1`, the remaining
ones size `L / n`.  `mp_split_ls ls n = np.array_split(ls, min(len(ls), n))`.
-/

/-- The section sizes `np.array_split` uses for a length-`L` input split
into `m` sections: `L % m` sections of size `L / m + 1` followed by
sections of size `L / m`. -/
def splitSizes (L m : Nat) : List Nat :=
  (List.range m).map (fun i => if i < L % m then L / m + 1 else L / m)

/-- Cut a list into consecutive chunks of the given sizes. -/
def takeChunks {α : Type} : List α → List Nat → List (List α)
  | _, [] => []
  | xs, sz :: rest => xs.take sz :: takeChunks (xs.drop sz) rest

/-- `np.array_split(ls, m)`: `m` contiguous sections covering `ls`;
numpy raises `ValueError` when the section count is 0. -/
def array_split {α : Type} (ls : List α) (m : Nat) :
    Except String (List (List α)) :=
  if m = 0 then .error "number sections must be larger than 0."
  else .ok (takeChunks ls (splitSizes ls.length m))

/-- `mp_split_ls` from src/vsm/__init__.py: split `ls` into
`min(len(ls), n)` sections via `np.array_split`; on an empty list the
section count is 0 and `np.array_split` raises. -/
def mp_split_ls {α : Type} (ls : List α) (n : Nat) :
    Except String (List (List α)) :=
  array_split ls (min ls.length n)

theorem takeChunks_length {α : Type} (xs : List α) (szs : List Nat) :
    (takeChunks xs szs).length = szs.length := by
  induction szs generalizing xs with
  | nil => rfl
  | cons a t ih => simp [takeChunks, ih]

theorem splitSizes_length (L m : Nat) : (splitSizes L m).length = m := by
  simp [splitSizes]

theorem takeChunks_flatten {α : Type} (xs : List α) (szs : List Nat) :
    (takeChunks xs szs).flatten = xs.take szs.sum := by
  induction szs generalizing xs with
  | nil => simp [takeChunks]
  | cons a t ih =>
      simp [takeChunks, List.flatten, ih, List.sum_cons, List.take_add]

theorem sum_ite_sizes (q r m : Nat) :
    ((List.range m).map (fun i => if i < r then q + 1 else q)).sum
      = m * q + min r m := by
  induction m with
  | zero => simp
  | succ m ih =>
      rw [List.range_succ, List.map_append, List.sum_append]
      simp only [List.map_cons, List.map_nil, List.sum_cons, List.sum_nil, ih]
      by_cases h : m < r
      · rw [if_pos h, Nat.min_eq_right (le_of_lt h),
          Nat.min_eq_right (by omega : m + 1 ≤ r), Nat.succ_mul]
        omega
      · rw [if_neg h, Nat.min_eq_left (by omega : r ≤ m),
          Nat.min_eq_left (by omega : r ≤ m + 1), Nat.succ_mul]
        omega

theorem splitSizes_sum (L m : Nat) (hm : 0 < m) : (splitSizes L m).sum = L := by
  unfold splitSizes
  rw [sum_ite_sizes]
  have hrm : L % m < m := Nat.mod_lt _ hm
  have : min (L % m) m = L % m := by omega
  rw [this]
  have := Nat.div_add_mod L m
  omega

/-- C5 counterexample: with 1 document and W = 2 workers, `mp_split_ls`
returns a single block, not W = 2 blocks — the claim that the partition
always consists of exactly W blocks is false. -/
theorem mp_split_ls_not_always_W_blocks :
    mp_split_ls ([0] : List Nat) 2 = .ok [[0]] ∧
    ([[0]] : List (List Nat)).length ≠ 2 :=
  ⟨rfl, by decide⟩

/-- C5 (amended): for every worker count W ≥ 1, `mp_split_ls` on an empty
document list raises (the section count `min(0, W)` is 0, which
`np.array_split` rejects), and on a nonempty document list it partitions
the documents into `min (#docs) W` contiguous, disjoint blocks whose
in-order concatenation is exactly the original document list — so exactly
W blocks whenever there are at least W documents, fewer otherwise. -/
theorem mp_split_ls_partition {α : Type} (ls : List α) (W : Nat)
    (hW : 1 ≤ W) :
    (ls = [] → ∃ e, mp_split_ls ls W = .error e) ∧
    (ls ≠ [] → ∃ bs, mp_split_ls ls W = .ok bs ∧
      bs.length = min ls.length W ∧ bs.flatten = ls) := by
  constructor
  · intro h
    subst h
    exact ⟨"number sections must be larger than 0.", by
      simp [mp_split_ls, array_split]⟩
  · intro h
    have hpos : 0 < ls.length := List.length_pos.mpr h
    have hm : 0 < min ls.length W := by omega
    refine ⟨takeChunks ls (splitSizes ls.length (min ls.length W)), ?_, ?_, ?_⟩
    · unfold mp_split_ls array_split
      rw [if_neg (by omega)]
    · rw [takeChunks_length, splitSizes_length]
    · rw [takeChunks_flatten, splitSizes_sum _ _ hm]
      exact List.take_length ls

/-- C5 witness: the amended behaviour at concrete inputs — the empty
document list raises, a five-document list with W = 2 workers is split
into two blocks that concatenate back to it. -/
theorem mp_split_ls_partition_witness :
    (1 ≤ 2 ∧ (([] : List Nat) = [] →
      ∃ e, mp_split_ls ([] : List Nat) 2 = .error e)) ∧
    (([3, 1, 4, 1, 5] : List Nat) ≠ [] ∧
      ∃ bs, mp_split_ls ([3, 1, 4, 1, 5] : List Nat) 2 = .ok bs ∧
        bs.length = min ([3, 1, 4, 1, 5] : List Nat).length 2 ∧
        bs.flatten = [3, 1, 4, 1, 5]) :=
  ⟨⟨by decide, (mp_split_ls_partition ([] : List Nat) 2 (by decide)).1⟩,
   ⟨by decide,
    (mp_split_ls_partition ([3, 1, 4, 1, 5] : List Nat) 2 (by decide)).2
      (by decide)⟩⟩

/-! ## CorpusSent (src/vsm/extensions/ldasentences.py)

The corpus of a `CorpusSent` is the flat stream of integer word ids, `words`
the id → word table, `sentences` the original sentence strings,
`context_types` the names of the stored tokenizations and `context_data`
one metadata array per context type.  Each metadata array is embedded by its
integer `idx` column (the token break positions); its string label columns
play no role in any claim. -/

structure CorpusSent where
  corpus : List Nat
  words : List String
  sentences : List String
  context_types : List String
  context_data : List (List Nat)
deriving DecidableEq

/-- `words_int` (ldasentences.py line 26): `dict((t,i) for i,t in
enumerate(self.words))` — maps a word to its index; with duplicate words
the later index wins, as in a Python dict built left to right. -/
def words_int (ws : List String) (t : String) : Nat :=
  (List.range ws.length).foldl (fun acc i => if ws.getD i "" = t then i else acc) 0

/-- The frequency-based part of the stop set (lines 46-59): when `freq` is
non-zero, every word id whose collection frequency is ≤ `freq`; otherwise
the empty set. -/
def freqStop (c : CorpusSent) (freq : Nat) : List Nat :=
  if freq ≠ 0 then
    (List.range c.words.length).filter (fun i => c.corpus.count i ≤ freq)
  else []

/-- The full stop set of `apply_stoplist` (lines 46-63): the frequency
stops plus the id of every stoplist word that occurs in `words`. -/
def stopIds (c : CorpusSent) (stoplist : List String) (freq : Nat) : List Nat :=
  freqStop c freq ++
    (stoplist.filter (fun t => t ∈ c.words)).map (words_int c.words)

/-- Result of `apply_stoplist`: the source either returns the receiver
object itself unchanged (`return self`, line 67) or builds a brand-new
`CorpusSent` from the filtered token stream (line 84).  The rebuild path
re-runs the `Corpus` base-class constructor, which is not among the
provided sources; the rebuilt value here carries the filtered id stream
that the source hands to that constructor. -/
inductive StoplistResult where
  | self : StoplistResult
  | rebuilt : List Nat → StoplistResult
deriving DecidableEq

/-- `CorpusSent.apply_stoplist` (lines 29-85): compute the stop set; if it
is empty return the receiver itself, otherwise rebuild from the filtered
corpus. -/
def apply_stoplist (c : CorpusSent) (stoplist : List String) (freq : Nat) :
    StoplistResult :=
  let stop := stopIds c stoplist freq
  if stop.isEmpty then .self
  else .rebuilt (c.corpus.filter (fun x => ! stop.contains x))

/-- C9: with an empty stoplist and `freq = 0` the stop set is empty, so
`apply_stoplist` takes the `return self` branch: the receiver itself is
returned with no copy made and no field modified. -/
theorem apply_stoplist_empty_returns_self (c : CorpusSent) :
    apply_stoplist c [] 0 = .self := by
  simp [apply_stoplist, stopIds, freqStop]

/-! ### sent_int (lines 148-166)

The method reads `tok = self.view_contexts('sentence', as_strings=True)`
from the `Corpus` base class (not among the provided sources); the
embedding takes that list of sentence tokenizations as an argument. -/

/-- `set(sent).issubset(tok[i].tolist())`. -/
def subsetOf (s t : List String) : Bool :=
  s.all (fun w => t.contains w)

/-- `CorpusSent.sent_int`: collect the indices of sentence tokenizations
that contain every query word; raise when there is none, return the bare
index when there is exactly one, the whole index list otherwise. -/
def sent_int (tok : List (List String)) (sent : List String) :
    Except String (Nat ⊕ List Nat) :=
  let sent_li := (List.range tok.length).map (fun _ => sent)
  let keys := (List.range tok.length).filter
      (fun i => subsetOf (sent_li.getD i []) (tok.getD i []))
  if keys.length = 0 then .error "No token fits that description."
  else if 1 < keys.length then .ok (.inr keys)
  else .ok (.inl (keys.getD 0 0))

/-- Specification-side view of the matching indices: the sentence
tokenizations containing all the query words. -/
def matchingSents (tok : List (List String)) (sent : List String) : List Nat :=
  (List.range tok.length).filter (fun i => decide (∀ w ∈ sent, w ∈ tok.getD i []))

theorem sent_int_keys_eq (tok : List (List String)) (sent : List String) :
    (List.range tok.length).filter
        (fun i =>
          subsetOf ((((List.range tok.length).map (fun _ => sent)).getD i []))
            (tok.getD i []))
      = matchingSents tok sent := by
  unfold matchingSents
  apply List.filter_congr
  intro i hi
  have hlt : i < tok.length := List.mem_range.mp hi
  have hget : (((List.range tok.length).map (fun _ => sent)).getD i []) = sent := by
    rw [List.getD_eq_getElem]
    · simp
    · simpa using hlt
  rw [hget]
  rw [Bool.eq_iff_iff]
  simp [subsetOf, List.all_eq_true]

/-- C10: `sent_int` raises when no sentence tokenization contains all the
query words, returns the single matching index when exactly one does, and
returns the full list of matching indices when several do. -/
theorem sent_int_cases (tok : List (List String)) (sent : List String) :
    (matchingSents tok sent = [] →
      sent_int tok sent = .error "No token fits that description.") ∧
    (∀ k, matchingSents tok sent = [k] → sent_int tok sent = .ok (.inl k)) ∧
    (2 ≤ (matchingSents tok sent).length →
      sent_int tok sent = .ok (.inr (matchingSents tok sent))) := by
  have hkeys := sent_int_keys_eq tok sent
  unfold sent_int
  simp only [hkeys]
  refine ⟨fun h0 => ?_, fun k hk => ?_, fun h2 => ?_⟩
  · rw [h0]
    simp
  · rw [hk]
    simp
  · rw [if_neg (by omega), if_pos (by omega)]

/-- C10 witness: the three behaviours of `sent_int` at concrete inputs:
no sentence contains "z"; only sentence 2 contains both "a" and "c";
sentences 1 and 2 both contain "c" and "b". -/
theorem sent_int_cases_witness :
    (matchingSents [["a", "b"], ["b", "c"], ["a", "b", "c"]] ["z"] = [] ∧
      sent_int [["a", "b"], ["b", "c"], ["a", "b", "c"]] ["z"]
        = .error "No token fits that description.") ∧
    (matchingSents [["a", "b"], ["b", "c"], ["a", "b", "c"]] ["a", "c"] = [2] ∧
      sent_int [["a", "b"], ["b", "c"], ["a", "b", "c"]] ["a", "c"]
        = .ok (.inl 2)) ∧
    (2 ≤ (matchingSents [["a", "b"], ["b", "c"], ["a", "b", "c"]] ["c", "b"]).length ∧
      sent_int [["a", "b"], ["b", "c"], ["a", "b", "c"]] ["c", "b"]
        = .ok (.inr (matchingSents [["a", "b"], ["b", "c"], ["a", "b", "c"]] ["c", "b"]))) :=
  ⟨⟨by decide, (sent_int_cases _ _).1 (by decide)⟩,
   ⟨by decide, (sent_int_cases _ _).2.1 2 (by decide)⟩,
   ⟨by decide, (sent_int_cases _ _).2.2 (by decide)⟩⟩

/-! ### CorpusSent.save / CorpusSent.load (lines 88-145)

`save` writes a named-array archive (`np.savez`) with keys `corpus`,
`words`, `sentences`, `context_types` and one `context_data_<name>` key per
context type; `load` reads those arrays back.  The archive is embedded as
an association list from keys to typed entries.  The key
`context_data_<name>` is represented by a dedicated constructor carrying
`<name>`: the `context_data_` prefix makes those keys distinct from the
four fixed keys for every `<name>`, which the constructor distinction
captures. -/

inductive NpzKey where
  | corpus : NpzKey
  | words : NpzKey
  | sentences : NpzKey
  | context_types : NpzKey
  | context_data : String → NpzKey
deriving DecidableEq

inductive NpzEntry where
  | natArr : List Nat → NpzEntry
  | strArr : List String → NpzEntry
deriving DecidableEq

/-- First entry stored under a key (the keys `save` writes are pairwise
distinct for a well-formed `CorpusSent`, so first and last match agree). -/
def npzFind (k : NpzKey) : List (NpzKey × NpzEntry) → Option NpzEntry
  | [] => none
  | (k', v) :: rest => if k = k' then some v else npzFind k rest

/-- Read an integer array; a missing key or a wrong dtype is a load
error (`np.load` archives raise `KeyError`). -/
def getNatArr (a : List (NpzKey × NpzEntry)) (k : NpzKey) :
    Except String (List Nat) :=
  match npzFind k a with
  | some (.natArr xs) => .ok xs
  | some (.strArr _) => .error "wrong dtype"
  | none => .error "missing array"

/-- Read a string array. -/
def getStrArr (a : List (NpzKey × NpzEntry)) (k : NpzKey) :
    Except String (List String) :=
  match npzFind k a with
  | some (.strArr xs) => .ok xs
  | some (.natArr _) => .error "wrong dtype"
  | none => .error "missing array"

/-- The `context_data_<name>` entries: `for i,t in
enumerate(self.context_data): key = 'context_data_' + self.context_types[i]`
(lines 141-143), written here for aligned lists (the Python loop raises
`IndexError` when `context_types` is shorter than `context_data`). -/
def ctxEntries : List String → List (List Nat) → List (NpzKey × NpzEntry)
  | _, [] => []
  | [], _ :: _ => []
  | n :: ns, t :: ts => (.context_data n, .natArr t) :: ctxEntries ns ts

/-- `CorpusSent.save` (lines 121-145): the named arrays handed to
`np.savez`. -/
def CorpusSent.save (c : CorpusSent) : List (NpzKey × NpzEntry) :=
  [(.corpus, .natArr c.corpus),
   (.words, .strArr c.words),
   (.sentences, .strArr c.sentences),
   (.context_types, .strArr c.context_types)]
  ++ ctxEntries c.context_types c.context_data

/-- `CorpusSent.load` (lines 88-119): read the four fixed arrays, then one
`context_data_<name>` array per name listed in `context_types`. -/
def CorpusSent.load (a : List (NpzKey × NpzEntry)) : Except String CorpusSent := do
  let corpus ← getNatArr a .corpus
  let words ← getStrArr a .words
  let sentences ← getStrArr a .sentences
  let context_types ← getStrArr a .context_types
  let context_data ← context_types.mapM (fun n => getNatArr a (.context_data n))
  pure { corpus := corpus, words := words, sentences := sentences,
         context_types := context_types, context_data := context_data }

theorem npzFind_ctxEntries (ts : List String) (ds : List (List Nat))
    (hlen : ts.length = ds.length) (hnd : ts.Nodup) :
    ∀ i, i < ts.length →
      npzFind (.context_data (ts.getD i "")) (ctxEntries ts ds)
        = some (.natArr (ds.getD i [])) := by
  induction ts generalizing ds with
  | nil => intro i hi; simp at hi
  | cons n ns ih =>
      cases ds with
      | nil => simp at hlen
      | cons d ds' =>
          intro i hi
          cases i with
          | zero => simp [ctxEntries, npzFind]
          | succ j =>
              have hj : j < ns.length := by simpa using hi
              have hmem : ns.getD j "" ∈ ns := by
                rw [List.getD_eq_getElem ns "" hj]
                exact List.getElem_mem hj
              have hne : ns.getD j "" ≠ n := by
                intro h
                exact (List.nodup_cons.mp hnd).1 (h ▸ hmem)
              have hkey : (NpzKey.context_data (ns.getD j ""))
                  ≠ (NpzKey.context_data n) := by
                intro h
                exact hne (by injection h)
              simp only [ctxEntries, npzFind, List.getD_cons_succ, if_neg hkey]
              exact ih ds' (by simpa using hlen) (List.nodup_cons.mp hnd).2 j hj

theorem mapM_getNatArr (a : List (NpzKey × NpzEntry)) :
    ∀ (ts : List String) (ds : List (List Nat)), ts.length = ds.length →
    (∀ i, i < ts.length →
        getNatArr a (.context_data (ts.getD i "")) = .ok (ds.getD i [])) →
    ts.mapM (fun n => getNatArr a (.context_data n)) = .ok ds := by
  intro ts
  induction ts with
  | nil =>
      intro ds hlen _
      have hds : ds = [] := by
        cases ds with
        | nil => rfl
        | cons d ds' => simp at hlen
      subst hds
      rfl
  | cons n ns ih =>
      intro ds hlen h
      cases ds with
      | nil => simp at hlen
      | cons d ds' =>
          have h0 := h 0 (by simp)
          simp only [List.getD_cons_zero] at h0
          have hrest := ih ds' (by simpa using hlen)
            (fun j hj => by
              have := h (j + 1) (by simpa using hj)
              simpa using this)
          rw [List.mapM_cons]
          simp only [bind, Except.bind, h0, hrest]
          rfl

/-- C8: saving a well-formed `CorpusSent` (one metadata array per context
type, context-type names distinct) and loading the archive back
reconstructs an object with the same corpus, words, sentences,
context_types and per-context-type context_data. -/
theorem CorpusSent_save_load_roundtrip (c : CorpusSent)
    (hlen : c.context_types.length = c.context_data.length)
    (hnd : c.context_types.Nodup) :
    CorpusSent.load (CorpusSent.save c) = .ok c := by
  have hctx : ∀ i, i < c.context_types.length →
      getNatArr (CorpusSent.save c) (.context_data (c.context_types.getD i ""))
        = .ok (c.context_data.getD i []) := by
    intro i hi
    unfold getNatArr CorpusSent.save
    simp only [List.cons_append, List.append_eq, List.nil_append, npzFind,
      reduceCtorEq, if_false]
    rw [npzFind_ctxEntries c.context_types c.context_data hlen hnd i hi]
  have hmap := mapM_getNatArr (CorpusSent.save c) c.context_types c.context_data
    hlen hctx
  have h1 : getNatArr (CorpusSent.save c) .corpus = .ok c.corpus := by
    simp [getNatArr, CorpusSent.save, npzFind]
  have h2 : getStrArr (CorpusSent.save c) .words = .ok c.words := by
    simp [getStrArr, CorpusSent.save, npzFind]
  have h3 : getStrArr (CorpusSent.save c) .sentences = .ok c.sentences := by
    simp [getStrArr, CorpusSent.save, npzFind]
  have h4 : getStrArr (CorpusSent.save c) .context_types = .ok c.context_types := by
    simp [getStrArr, CorpusSent.save, npzFind]
  unfold CorpusSent.load
  rw [h1]
  simp only [bind, Except.bind]
  rw [h2]
  simp only [bind, Except.bind]
  rw [h3]
  simp only [bind, Except.bind]
  rw [h4]
  simp only [bind, Except.bind]
  rw [hmap]
  rfl

/-- C8 witness: the round trip at a concrete two-context corpus. -/
theorem CorpusSent_save_load_roundtrip_witness :
    (["sentence", "paragraph"] : List String).length = 2 ∧
    (["sentence", "paragraph"] : List String).Nodup ∧
    CorpusSent.load (CorpusSent.save
        ⟨[0, 1, 0], ["a", "b"], ["a b", "a"], ["sentence", "paragraph"],
          [[2, 3], [3]]⟩)
      = .ok ⟨[0, 1, 0], ["a", "b"], ["a b", "a"], ["sentence", "paragraph"],
          [[2, 3], [3]]⟩ :=
  ⟨by decide, by decide,
    CorpusSent_save_load_roundtrip _ (by decide) (by decide)⟩

/-! ## The LdaCgsMulti sampler state and its serializer

`vsm/model/ldacgsmulti.py` is not among the provided sources (only its unit
tests are), so the sampler state and the Serializer are modelled from the
specification (§3, §4.5, §6).  Machine floats (alpha, beta, inv_top_sums,
log-likelihood values) are embedded as rationals. -/

/-- Modelled from the spec: the readable state of a trained `LdaCgsMulti`
model (§3, §6) — `vsm/model/ldacgsmulti.py` is missing from the sources.
`log_probs` is an optional sequence of (iteration, log-likelihood) pairs,
present only when likelihood tracking was requested. -/
structure LdaCgsMulti where
  K : Nat
  V : Nat
  context_type : String
  alpha : List ℚ
  beta : List ℚ
  corpus : List Nat
  Z : List Nat
  word_top : List (List Nat)
  top_doc : List (List Nat)
  inv_top_sums : List ℚ
  iteration : Nat
  log_probs : Option (List (Nat × ℚ))
deriving DecidableEq

/-- A named array in the self-describing archive (§4.5). -/
inductive LdaVal where
  | natV : Nat → LdaVal
  | strV : String → LdaVal
  | natArr : List Nat → LdaVal
  | ratArr : List ℚ → LdaVal
  | natMat : List (List Nat) → LdaVal
  | probArr : List (Nat × ℚ) → LdaVal
deriving DecidableEq

/-- First entry stored under a name; the archive written by `save` has
pairwise-distinct names. -/
def ldaFind (k : String) : List (String × LdaVal) → Option LdaVal
  | [] => none
  | (k', v) :: rest => if k = k' then some v else ldaFind k rest

/-- Modelled from the spec: `save(state) -> archive` (§4.5, §6) — writes
the named arrays `corpus`, `vocabulary`, `context_type`, `K`, `alpha`,
`beta`, `Z`, `word_top`, `top_doc`, `inv_top_sums`, `iteration`, and
`log_probs` only if likelihood was tracked. -/
def LdaCgsMulti.save (m : LdaCgsMulti) : List (String × LdaVal) :=
  [("corpus", .natArr m.corpus),
   ("vocabulary", .natV m.V),
   ("context_type", .strV m.context_type),
   ("K", .natV m.K),
   ("alpha", .ratArr m.alpha),
   ("beta", .ratArr m.beta),
   ("Z", .natArr m.Z),
   ("word_top", .natMat m.word_top),
   ("top_doc", .natMat m.top_doc),
   ("inv_top_sums", .ratArr m.inv_top_sums),
   ("iteration", .natV m.iteration)]
  ++ (match m.log_probs with
      | some lp => [("log_probs", .probArr lp)]
      | none => [])

def getNatV (a : List (String × LdaVal)) (k : String) : Except String Nat :=
  match ldaFind k a with
  | some (.natV n) => .ok n
  | some _ => .error "wrong dtype"
  | none => .error "missing array"

def getStrV (a : List (String × LdaVal)) (k : String) : Except String String :=
  match ldaFind k a with
  | some (.strV s) => .ok s
  | some _ => .error "wrong dtype"
  | none => .error "missing array"

def getNatArrL (a : List (String × LdaVal)) (k : String) : Except String (List Nat) :=
  match ldaFind k a with
  | some (.natArr xs) => .ok xs
  | some _ => .error "wrong dtype"
  | none => .error "missing array"

def getRatArr (a : List (String × LdaVal)) (k : String) : Except String (List ℚ) :=
  match ldaFind k a with
  | some (.ratArr xs) => .ok xs
  | some _ => .error "wrong dtype"
  | none => .error "missing array"

def getNatMat (a : List (String × LdaVal)) (k : String) : Except String (List (List Nat)) :=
  match ldaFind k a with
  | some (.natMat xs) => .ok xs
  | some _ => .error "wrong dtype"
  | none => .error "missing array"

/-- The optional `log_probs` entry: absence is not an error (§4.5). -/
def getLogProbs (a : List (String × LdaVal)) : Option (List (Nat × ℚ)) :=
  match ldaFind "log_probs" a with
  | some (.probArr lp) => some lp
  | _ => none

/-- Modelled from the spec: `load(archive) -> state` (§4.5) — reconstructs
the model from the named arrays, failing with a format error when a
required array is missing or of the wrong dtype, and omitting `log_probs`
when the archive has no such entry. -/
def LdaCgsMulti.load (a : List (String × LdaVal)) : Except String LdaCgsMulti := do
  let corpus ← getNatArrL a "corpus"
  let V ← getNatV a "vocabulary"
  let context_type ← getStrV a "context_type"
  let K ← getNatV a "K"
  let alpha ← getRatArr a "alpha"
  let beta ← getRatArr a "beta"
  let Z ← getNatArrL a "Z"
  let word_top ← getNatMat a "word_top"
  let top_doc ← getNatMat a "top_doc"
  let inv_top_sums ← getRatArr a "inv_top_sums"
  let iteration ← getNatV a "iteration"
  pure { K := K, V := V, context_type := context_type, alpha := alpha,
         beta := beta, corpus := corpus, Z := Z, word_top := word_top,
         top_doc := top_doc, inv_top_sums := inv_top_sums,
         iteration := iteration, log_probs := getLogProbs a }

/-- C1: saving a trained model and loading the archive reproduces a model
with identical K, alpha, beta, Z, word_top, top_doc, inv_top_sums, corpus,
V, iteration, context_type and log_probs — log_probs equal when tracked
and absent when untracked. -/
theorem lda_save_load_roundtrip (m : LdaCgsMulti) :
    LdaCgsMulti.load (LdaCgsMulti.save m) = .ok m := by
  cases m with
  | mk K V ct al be co Z wt td its it lp =>
      cases lp with
      | none => rfl
      | some lpv => rfl

/-- C2: when the model never tracked likelihood, the archive contains no
`log_probs` entry at all and the loaded model's `log_probs` is absent
(`none`), not an empty sequence. -/
theorem lda_load_untracked_no_log_probs (m : LdaCgsMulti)
    (h : m.log_probs = none) :
    ldaFind "log_probs" (LdaCgsMulti.save m) = none ∧
    (LdaCgsMulti.load (LdaCgsMulti.save m)).map (fun m' => m'.log_probs)
      = .ok none := by
  cases m with
  | mk K V ct al be co Z wt td its it lp =>
      cases lp with
      | none => exact ⟨rfl, rfl⟩
      | some lpv => simp at h

/-- C2 witness: the untracked-likelihood contract at a concrete model. -/
theorem lda_load_untracked_no_log_probs_witness :
    (LdaCgsMulti.log_probs
        ⟨2, 3, "document", [1, 1], [1, 1, 1], [0, 2, 1], [1, 0, 1],
          [[1, 0], [0, 1], [1, 0]], [[2, 1]], [1, 1], 5, none⟩ = none) ∧
    (ldaFind "log_probs" (LdaCgsMulti.save
        ⟨2, 3, "document", [1, 1], [1, 1, 1], [0, 2, 1], [1, 0, 1],
          [[1, 0], [0, 1], [1, 0]], [[2, 1]], [1, 1], 5, none⟩) = none ∧
      (LdaCgsMulti.load (LdaCgsMulti.save
          ⟨2, 3, "document", [1, 1], [1, 1, 1], [0, 2, 1], [1, 0, 1],
            [[1, 0], [0, 1], [1, 0]], [[2, 1]], [1, 1], 5, none⟩)).map
          (fun m' => m'.log_probs) = .ok none) :=
  ⟨rfl, lda_load_untracked_no_log_probs _ rfl⟩

/-! ## Model construction (§4.1, §6, §7) -/

/-- Modelled from the spec: the validated configuration produced by
`Construct` (§6) before any counts are built — `vsm/model/ldacgsmulti.py`
is missing from the sources.  `K` arrives as a (possibly non-positive)
machine integer. -/
structure LdaConfig where
  K : Nat
  V : Nat
  context_type : String
  alpha : List ℚ
  beta : List ℚ
deriving DecidableEq

/-- Modelled from the spec: construction validation (§4.1, §7) —
"Construction fails with a configuration error if K ≤ 0, or if alpha/beta
dimensions disagree with K/V", raised synchronously before any counts are
built and never silently corrected. -/
def ldaConstruct (V : Nat) (context_type : String) (K : Int)
    (alpha beta : List ℚ) : Except String LdaConfig :=
  if K ≤ 0 then .error "invalid K"
  else if alpha.length ≠ K.toNat then .error "alpha dimension mismatch"
  else if beta.length ≠ V then .error "beta dimension mismatch"
  else .ok { K := K.toNat, V := V, context_type := context_type,
             alpha := alpha, beta := beta }

/-- C6: construction with K ≤ 0 or mismatched alpha/beta dimensions fails
synchronously with a configuration error (no configuration — hence no
counts — is ever produced), and on valid input the configuration carries
the parameters exactly as given, never silently corrected. -/
theorem ldaConstruct_validates (V : Nat) (ct : String) (K : Int)
    (alpha beta : List ℚ) :
    ((K ≤ 0 ∨ alpha.length ≠ K.toNat ∨ beta.length ≠ V) →
      ∃ e, ldaConstruct V ct K alpha beta = .error e) ∧
    (0 < K → alpha.length = K.toNat → beta.length = V →
      ldaConstruct V ct K alpha beta
        = .ok ⟨K.toNat, V, ct, alpha, beta⟩) := by
  constructor
  · intro hbad
    unfold ldaConstruct
    rcases hbad with hK | ha | hb
    · exact ⟨"invalid K", by rw [if_pos hK]⟩
    · by_cases hK : K ≤ 0
      · exact ⟨"invalid K", by rw [if_pos hK]⟩
      · exact ⟨"alpha dimension mismatch", by rw [if_neg hK, if_pos ha]⟩
    · by_cases hK : K ≤ 0
      · exact ⟨"invalid K", by rw [if_pos hK]⟩
      · by_cases ha : alpha.length ≠ K.toNat
        · exact ⟨"alpha dimension mismatch", by rw [if_neg hK, if_pos ha]⟩
        · exact ⟨"beta dimension mismatch",
            by rw [if_neg hK, if_neg ha, if_pos hb]⟩
  · intro hK ha hb
    unfold ldaConstruct
    rw [if_neg (by omega), if_neg (by omega),
      if_neg (by simp [hb])]

/-- C6 witness: K = 0 is rejected; a well-dimensioned construction returns
exactly the given parameters. -/
theorem ldaConstruct_validates_witness :
    (((0 : Int) ≤ 0 ∨ ([1, 1] : List ℚ).length ≠ (0 : Int).toNat ∨
        ([1, 1, 1] : List ℚ).length ≠ 3) →
      ∃ e, ldaConstruct 3 "document" 0 [1, 1] [1, 1, 1] = .error e) ∧
    ((0 : Int) < 2 ∧ ([1, 1] : List ℚ).length = (2 : Int).toNat ∧
      ([1, 1, 1] : List ℚ).length = 3 ∧
      ldaConstruct 3 "document" 2 [1, 1] [1, 1, 1]
        = .ok ⟨2, 3, "document", [1, 1], [1, 1, 1]⟩) :=
  ⟨(ldaConstruct_validates 3 "document" 0 [1, 1] [1, 1, 1]).1,
   ⟨by decide, by decide, by decide,
     (ldaConstruct_validates 3 "document" 2 [1, 1] [1, 1, 1]).2
       (by decide) (by decide) (by decide)⟩⟩

/-! ## Trainer failure semantics (§4.4, §5, §7) -/

/-- Modelled from the spec: the Shared Count Store (§4.1) — word-topic
counts, document-topic counts, the cached per-topic normalizers, the topic
assignments and the iteration counter. -/
structure CountStore where
  word_top : List (List ℤ)
  top_doc : List (List ℤ)
  inv_top_sums : List ℚ
  Z : List Nat
  iteration : Nat
deriving DecidableEq

/-- Modelled from the spec: what a surviving worker hands back from one
sweep (§4.3) — its local word-topic delta and the top_doc rows and Z slice
of the documents it exclusively owns. -/
structure WorkerOut where
  word_top_delta : List (List ℤ)
  top_doc_rows : List (List ℤ)
  Z_slice : List Nat
deriving DecidableEq

/-- Elementwise matrix sum. -/
def addMat (A B : List (List ℤ)) : List (List ℤ) :=
  A.zipWith (fun r s => r.zipWith (· + ·) s) B

/-- Modelled from the spec: `inv_top_sums[k] = 1 / (Σ_w word_top[w,k] +
V·beta)` (§3), recomputed at merge time. -/
def invTopSums (wt : List (List ℤ)) (V : Nat) (beta : ℚ) : List ℚ :=
  wt.transpose.map (fun col => 1 / ((col.sum : ℚ) + (V : ℚ) * beta))

/-- Modelled from the spec: `merge(deltas)` (§4.1, §4.4) — sum the
per-worker word_top deltas into the store, reassemble top_doc and Z from
the worker-owned slices in document order, recompute inv_top_sums and
advance the iteration counter. -/
def merge (V : Nat) (beta : ℚ) (s : CountStore) (ds : List WorkerOut) :
    CountStore :=
  let wt := ds.foldl (fun acc d => addMat acc d.word_top_delta) s.word_top
  { word_top := wt
    top_doc := (ds.map (fun d => d.top_doc_rows)).flatten
    Z := (ds.map (fun d => d.Z_slice)).flatten
    inv_top_sums := invTopSums wt V beta
    iteration := s.iteration + 1 }

/-- The first abnormal termination among the workers of a sweep, if any. -/
def firstErr : List (Except String WorkerOut) → Option String
  | [] => none
  | .error e :: _ => some e
  | .ok _ :: rest => firstErr rest

/-- The surviving workers' results, in worker order. -/
def collectOks : List (Except String WorkerOut) → List WorkerOut
  | [] => []
  | .error _ :: rest => collectOks rest
  | .ok d :: rest => d :: collectOks rest

/-- Modelled from the spec: the Trainer's sweep loop (§4.4, §7) — barrier
on all workers of a sweep; if any worker terminated abnormally, abort the
training call, surface the cause and leave the store at its last
fully-merged state; otherwise merge and continue with the next sweep.  The
result pairs the store the caller observes with the propagated cause. -/
def trainRun (V : Nat) (beta : ℚ) :
    CountStore → List (List (Except String WorkerOut)) →
    CountStore × Option String
  | s, [] => (s, none)
  | s, sweep :: rest =>
      match firstErr sweep with
      | some e => (s, some e)
      | none => trainRun V beta (merge V beta s (collectOks sweep)) rest

/-- C7: if a worker of some sweep terminates abnormally while all earlier
sweeps completed, the training call fails, the first abnormal cause is
propagated, and the observable store is exactly the merge of the earlier,
fully completed sweeps — the failing sweep and everything after it leave
no trace. -/
theorem trainRun_worker_failure (V : Nat) (beta : ℚ) (s : CountStore)
    (pre : List (List (Except String WorkerOut)))
    (bad : List (Except String WorkerOut))
    (rest : List (List (Except String WorkerOut))) (e : String)
    (hpre : ∀ sw ∈ pre, firstErr sw = none)
    (hbad : firstErr bad = some e) :
    trainRun V beta s (pre ++ bad :: rest)
      = (pre.foldl (fun t sw => merge V beta t (collectOks sw)) s, some e) := by
  induction pre generalizing s with
  | nil =>
      simp only [List.nil_append, List.foldl_nil, trainRun, hbad]
  | cons sw pre ih =>
      have hsw : firstErr sw = none := hpre sw (by simp)
      simp only [List.cons_append, List.foldl_cons, trainRun, hsw]
      exact ih _ (fun x hx => hpre x (by simp [hx]))

/-- C7 witness: one completed sweep, then a sweep whose second worker
fails — the observable store is the merge of the first sweep only and the
cause is propagated. -/
theorem trainRun_worker_failure_witness :
    (∀ sw ∈ [[Except.ok (⟨[[1]], [[2]], [1]⟩ : WorkerOut)]],
        firstErr sw = none) ∧
    firstErr [Except.ok (⟨[[0]], [[3]], [0]⟩ : WorkerOut),
        Except.error "worker died"] = some "worker died" ∧
    trainRun 1 1 ⟨[[0]], [[0]], [1], [0], 0⟩
        ([[Except.ok (⟨[[1]], [[2]], [1]⟩ : WorkerOut)]] ++
          [Except.ok (⟨[[0]], [[3]], [0]⟩ : WorkerOut),
            Except.error "worker died"] :: [])
      = ([[Except.ok (⟨[[1]], [[2]], [1]⟩ : WorkerOut)]].foldl
          (fun t sw => merge 1 1 t (collectOks sw))
          ⟨[[0]], [[0]], [1], [0], 0⟩, some "worker died") :=
  ⟨by decide, by decide,
    trainRun_worker_failure 1 1 ⟨[[0]], [[0]], [1], [0], 0⟩ _ _ [] "worker died"
      (by decide) (by decide)⟩

/-! ## The sampling sweep and the count invariants (§3, §4.2, §4.3, §8)

Modelled from the spec: the per-token resampling kernel of §4.2 decrements
the counts of the token's current topic, draws a new topic, increments the
counts of the new topic and writes it into Z.  Which topic the categorical
draw produces does not matter for the §8 count invariants, so the sweep is
parametrised by an arbitrary draw oracle; the concrete seeded kernel is
defined further below for the determinism claim.  The corpus is the list
of documents, each a list of word ids; count matrices are embedded as
functions `Nat → Nat → ℤ` on (row, topic). -/

/-- The sampler state: topic assignments (shaped like the corpus), the
document-topic count matrix and the word-topic count matrix. -/
structure GState where
  Z : List (List Nat)
  top_doc : Nat → Nat → ℤ
  word_top : Nat → Nat → ℤ

/-- Add `v` at entry (a, b) of a count matrix. -/
def bump (f : Nat → Nat → ℤ) (a b : Nat) (v : ℤ) : Nat → Nat → ℤ :=
  fun x y => if x = a ∧ y = b then f x y + v else f x y

/-- Modelled from the spec: the per-token kernel (§4.2 steps 1 and 4) at
document `d`, token position `j`, resampled topic `zNew`: decrement
`top_doc[d, z_old]` and `word_top[w, z_old]`, increment them at `zNew`,
write `zNew` into Z. -/
def tokenStep (corpus : List (List Nat)) (d j zNew : Nat) (s : GState) :
    GState :=
  let zOld := (s.Z.getD d []).getD j 0
  let w := (corpus.getD d []).getD j 0
  { Z := s.Z.set d ((s.Z.getD d []).set j zNew)
    top_doc := bump (bump s.top_doc d zOld (-1)) d zNew 1
    word_top := bump (bump s.word_top w zOld (-1)) w zNew 1 }

/-- One worker pass over document `d`: every token exactly once, in
document order (§4.3). -/
def docSweep (corpus : List (List Nat)) (draw : Nat → Nat → Nat) (d : Nat)
    (s : GState) : GState :=
  (List.range (corpus.getD d []).length).foldl
    (fun t j => tokenStep corpus d j (draw d j) t) s

/-- One full sweep: every document once (§4.3); `draw d j` is the topic
the kernel's categorical draw produces for token `j` of document `d`. -/
def sweep (corpus : List (List Nat)) (draw : Nat → Nat → Nat) (s : GState) :
    GState :=
  (List.range corpus.length).foldl (fun t d => docSweep corpus draw d t) s

/-- `n` training iterations; `oracle i` is the draw function of
iteration `i`. -/
def sweeps (corpus : List (List Nat)) (oracle : Nat → Nat → Nat → Nat) :
    Nat → GState → GState
  | 0, s => s
  | n + 1, s => sweep corpus (oracle n) (sweeps corpus oracle n s)

/-- Counts built by aggregation of Z at construction (§3 lifecycle):
`top_doc[d, k]` is the number of tokens of document `d` assigned `k`. -/
def topDocInit (Z : List (List Nat)) : Nat → Nat → ℤ :=
  fun d k => ((Z.getD d []).count k : ℤ)

/-- `word_top[w, k]`: the number of corpus positions holding word `w`
assigned topic `k`. -/
def wordTopInit (corpus Z : List (List Nat)) : Nat → Nat → ℤ :=
  fun w k => ∑ d ∈ Finset.range corpus.length,
    (((corpus.getD d []).zip (Z.getD d [])).count (w, k) : ℤ)

/-- Total occurrences of word `w` across the corpus. -/
def occurrences (corpus : List (List Nat)) (w : Nat) : ℤ :=
  ∑ d ∈ Finset.range corpus.length, ((corpus.getD d []).count w : ℤ)

/-- The `Initialized` state (§4.4): given topic assignments, counts built
by aggregation. -/
def initState (corpus Z0 : List (List Nat)) : GState :=
  ⟨Z0, topDocInit Z0, wordTopInit corpus Z0⟩

/-- The §3 invariants plus the shape facts that keep them inductive: Z is
shaped like the corpus with topics in [0, K); every top_doc row of a real
document sums to the document length; every word_top row sums to the
word's corpus frequency. -/
def Inv (corpus : List (List Nat)) (K : Nat) (s : GState) : Prop :=
  s.Z.length = corpus.length ∧
  (∀ d, d < corpus.length →
    (s.Z.getD d []).length = (corpus.getD d []).length) ∧
  (∀ d j, d < corpus.length → j < (corpus.getD d []).length →
    (s.Z.getD d []).getD j 0 < K) ∧
  (∀ d, d < corpus.length →
    ∑ k ∈ Finset.range K, s.top_doc d k = ((corpus.getD d []).length : ℤ)) ∧
  (∀ w, ∑ k ∈ Finset.range K, s.word_top w k = occurrences corpus w)

theorem getD_set_self {α : Type} (l : List α) (i : Nat) (x dflt : α)
    (h : i < l.length) : (l.set i x).getD i dflt = x := by
  simp [List.getD_eq_getElem?_getD, List.getElem?_set_self h]

theorem getD_set_ne {α : Type} (l : List α) (i j : Nat) (x dflt : α)
    (h : i ≠ j) : (l.set i x).getD j dflt = l.getD j dflt := by
  simp [List.getD_eq_getElem?_getD, List.getElem?_set_ne h]

theorem bump_apply (f : Nat → Nat → ℤ) (a b : Nat) (v : ℤ) (x k : Nat) :
    bump f a b v x k = f x k + (if x = a ∧ k = b then v else 0) := by
  unfold bump
  by_cases h : x = a ∧ k = b <;> simp [h]

theorem sum_range_update (g : Nat → ℤ) (K zOld zNew : Nat)
    (h1 : zOld < K) (h2 : zNew < K) :
    ∑ k ∈ Finset.range K,
        (g k + (if k = zOld then (-1 : ℤ) else 0) +
          (if k = zNew then (1 : ℤ) else 0))
      = ∑ k ∈ Finset.range K, g k := by
  rw [Finset.sum_add_distrib, Finset.sum_add_distrib,
    Finset.sum_ite_eq' (Finset.range K) zOld (fun _ => (-1 : ℤ)),
    Finset.sum_ite_eq' (Finset.range K) zNew (fun _ => (1 : ℤ))]
  rw [if_pos (Finset.mem_range.mpr h1), if_pos (Finset.mem_range.mpr h2)]
  ring

theorem tokenStep_Z (corpus : List (List Nat)) (d j zNew : Nat) (s : GState) :
    (tokenStep corpus d j zNew s).Z = s.Z.set d ((s.Z.getD d []).set j zNew) :=
  rfl

theorem tokenStep_top_doc (corpus : List (List Nat)) (d j zNew : Nat)
    (s : GState) :
    (tokenStep corpus d j zNew s).top_doc
      = bump (bump s.top_doc d ((s.Z.getD d []).getD j 0) (-1)) d zNew 1 :=
  rfl

theorem tokenStep_word_top (corpus : List (List Nat)) (d j zNew : Nat)
    (s : GState) :
    (tokenStep corpus d j zNew s).word_top
      = bump (bump s.word_top ((corpus.getD d []).getD j 0)
          ((s.Z.getD d []).getD j 0) (-1)) ((corpus.getD d []).getD j 0)
          zNew 1 :=
  rfl

theorem tokenStep_inv (corpus : List (List Nat)) (K : Nat) (s : GState)
    (d j zNew : Nat) (hd : d < corpus.length)
    (hj : j < (corpus.getD d []).length) (hzN : zNew < K)
    (h : Inv corpus K s) : Inv corpus K (tokenStep corpus d j zNew s) := by
  obtain ⟨hlen, hdl, hb, htd, hwt⟩ := h
  have hzO : (s.Z.getD d []).getD j 0 < K := hb d j hd hj
  have hdZ : d < s.Z.length := by omega
  have hjZ : j < (s.Z.getD d []).length := by rw [hdl d hd]; exact hj
  refine ⟨?_, ?_, ?_, ?_, ?_⟩
  · rw [tokenStep_Z, List.length_set]
    exact hlen
  · intro d' hd'
    rw [tokenStep_Z]
    by_cases hdd : d' = d
    · subst hdd
      rw [getD_set_self _ _ _ _ hdZ, List.length_set]
      exact hdl d' hd'
    · rw [getD_set_ne _ _ _ _ _ (fun hh => hdd hh.symm)]
      exact hdl d' hd'
  · intro d' j' hd' hj'
    rw [tokenStep_Z]
    by_cases hdd : d' = d
    · subst hdd
      rw [getD_set_self _ _ _ _ hdZ]
      by_cases hjj : j' = j
      · subst hjj
        rw [getD_set_self _ _ _ _ hjZ]
        exact hzN
      · rw [getD_set_ne _ _ _ _ _ (fun hh => hjj hh.symm)]
        exact hb d' j' hd' hj'
    · rw [getD_set_ne _ _ _ _ _ (fun hh => hdd hh.symm)]
      exact hb d' j' hd' hj'
  · intro d' hd'
    have hrow : ∀ k, (tokenStep corpus d j zNew s).top_doc d' k
        = s.top_doc d' k +
            (if d' = d ∧ k = (s.Z.getD d []).getD j 0 then (-1 : ℤ) else 0) +
            (if d' = d ∧ k = zNew then (1 : ℤ) else 0) := by
      intro k
      rw [tokenStep_top_doc, bump_apply, bump_apply]
    by_cases hdd : d' = d
    · subst hdd
      have hstep : ∑ k ∈ Finset.range K, (tokenStep corpus d' j zNew s).top_doc d' k
          = ∑ k ∈ Finset.range K,
              (s.top_doc d' k +
                (if k = (s.Z.getD d' []).getD j 0 then (-1 : ℤ) else 0) +
                (if k = zNew then (1 : ℤ) else 0)) := by
        apply Finset.sum_congr rfl
        intro k _
        rw [hrow k]
        simp
      rw [hstep, sum_range_update _ K _ zNew hzO hzN]
      exact htd d' hd'
    · have hstep : ∑ k ∈ Finset.range K, (tokenStep corpus d j zNew s).top_doc d' k
          = ∑ k ∈ Finset.range K, s.top_doc d' k := by
        apply Finset.sum_congr rfl
        intro k _
        rw [hrow k]
        simp [hdd]
      rw [hstep]
      exact htd d' hd'
  · intro w'
    have hrow : ∀ k, (tokenStep corpus d j zNew s).word_top w' k
        = s.word_top w' k +
            (if w' = (corpus.getD d []).getD j 0 ∧
                k = (s.Z.getD d []).getD j 0 then (-1 : ℤ) else 0) +
            (if w' = (corpus.getD d []).getD j 0 ∧ k = zNew
              then (1 : ℤ) else 0) := by
      intro k
      rw [tokenStep_word_top, bump_apply, bump_apply]
    by_cases hww : w' = (corpus.getD d []).getD j 0
    · have hstep : ∑ k ∈ Finset.range K, (tokenStep corpus d j zNew s).word_top w' k
          = ∑ k ∈ Finset.range K,
              (s.word_top w' k +
                (if k = (s.Z.getD d []).getD j 0 then (-1 : ℤ) else 0) +
                (if k = zNew then (1 : ℤ) else 0)) := by
        apply Finset.sum_congr rfl
        intro k _
        rw [hrow k]
        simp only [hww, eq_self_iff_true, true_and]
      rw [hstep, sum_range_update _ K _ zNew hzO hzN]
      exact hwt w'
    · have hstep : ∑ k ∈ Finset.range K, (tokenStep corpus d j zNew s).word_top w' k
          = ∑ k ∈ Finset.range K, s.word_top w' k := by
        apply Finset.sum_congr rfl
        intro k _
        rw [hrow k, if_neg (fun hc => hww hc.1), if_neg (fun hc => hww hc.1)]
        ring
      rw [hstep]
      exact hwt w'

theorem foldl_inv {σ α : Type} (P : σ → Prop) (step : σ → α → σ) :
    ∀ (l : List α) (s : σ), P s →
      (∀ t a, a ∈ l → P t → P (step t a)) → P (l.foldl step s) := by
  intro l
  induction l with
  | nil => intro s hs _; exact hs
  | cons a t ih =>
      intro s hs hstep
      exact ih (step s a) (hstep s a (by simp) hs)
        (fun u b hb hu => hstep u b (by simp [hb]) hu)

theorem docSweep_inv (corpus : List (List Nat)) (K : Nat)
    (draw : Nat → Nat → Nat) (d : Nat) (s : GState)
    (hd : d < corpus.length)
    (hdraw : ∀ j, j < (corpus.getD d []).length → draw d j < K)
    (h : Inv corpus K s) : Inv corpus K (docSweep corpus draw d s) := by
  unfold docSweep
  apply foldl_inv (Inv corpus K) _ _ _ h
  intro t j hjmem ht
  have hj : j < (corpus.getD d []).length := List.mem_range.mp hjmem
  exact tokenStep_inv corpus K t d j (draw d j) hd hj (hdraw j hj) ht

theorem sweep_inv (corpus : List (List Nat)) (K : Nat)
    (draw : Nat → Nat → Nat) (s : GState)
    (hdraw : ∀ d j, d < corpus.length → j < (corpus.getD d []).length →
      draw d j < K)
    (h : Inv corpus K s) : Inv corpus K (sweep corpus draw s) := by
  unfold sweep
  apply foldl_inv (Inv corpus K) _ _ _ h
  intro t d hdmem ht
  have hd : d < corpus.length := List.mem_range.mp hdmem
  exact docSweep_inv corpus K draw d t hd (fun j hj => hdraw d j hd hj) ht

theorem sweeps_inv (corpus : List (List Nat)) (K : Nat)
    (oracle : Nat → Nat → Nat → Nat) (n : Nat) (s : GState)
    (horacle : ∀ i d j, i < n → d < corpus.length →
      j < (corpus.getD d []).length → oracle i d j < K)
    (h : Inv corpus K s) : Inv corpus K (sweeps corpus oracle n s) := by
  induction n with
  | zero => exact h
  | succ n ih =>
      show Inv corpus K (sweep corpus (oracle n) (sweeps corpus oracle n s))
      apply sweep_inv corpus K (oracle n) _
        (fun d j hd hj => horacle n d j (by omega) hd hj)
      exact ih (fun i d j hi hd hj => horacle i d j (by omega) hd hj)

theorem sum_count_range (l : List Nat) (K : Nat) (hl : ∀ x ∈ l, x < K) :
    ∑ k ∈ Finset.range K, ((l.count k : ℕ) : ℤ) = (l.length : ℤ) := by
  induction l with
  | nil => simp
  | cons a t ih =>
      have ha : a < K := hl a (by simp)
      have ht : ∀ x ∈ t, x < K := fun x hx => hl x (by simp [hx])
      have hcc : ∀ k : ℕ, (((a :: t).count k : ℕ) : ℤ)
          = ((t.count k : ℕ) : ℤ) + (if k = a then (1 : ℤ) else 0) := by
        intro k
        rw [List.count_cons]
        by_cases h : k = a
        · subst h
          simp
        · have : (a == k) = false := by
            simp [Ne.symm h]
          simp [this, h]
      rw [Finset.sum_congr rfl (fun k _ => hcc k), Finset.sum_add_distrib,
        ih ht, Finset.sum_ite_eq' (Finset.range K) a (fun _ => (1 : ℤ)),
        if_pos (Finset.mem_range.mpr ha)]
      push_cast [List.length_cons]
      ring

theorem sum_count_zip (w K : Nat) :
    ∀ (doc zs : List Nat), zs.length = doc.length → (∀ z ∈ zs, z < K) →
      ∑ k ∈ Finset.range K, (((doc.zip zs).count (w, k) : ℕ) : ℤ)
        = ((doc.count w : ℕ) : ℤ) := by
  intro doc
  induction doc with
  | nil =>
      intro zs _ _
      simp
  | cons a doc' ih =>
      intro zs hlen hz
      cases zs with
      | nil => simp at hlen
      | cons b zs' =>
          have hb : b < K := hz b (by simp)
          have hz' : ∀ z ∈ zs', z < K := fun z hzz => hz z (by simp [hzz])
          have hcount : ∀ k : ℕ,
              ((((a :: doc').zip (b :: zs')).count (w, k) : ℕ) : ℤ)
                = (((doc'.zip zs').count (w, k) : ℕ) : ℤ) +
                  (if w = a ∧ k = b then (1 : ℤ) else 0) := by
            intro k
            rw [List.zip_cons_cons, List.count_cons]
            by_cases h : w = a ∧ k = b
            · rw [if_pos h]
              have hbeq : ((a, b) == (w, k)) = true := by
                rw [beq_iff_eq, Prod.mk.injEq]
                exact ⟨h.1.symm, h.2.symm⟩
              simp [hbeq]
            · have hbeq : ((a, b) == (w, k)) = false := by
                rw [beq_eq_false_iff_ne]
                intro hc
                rw [Prod.mk.injEq] at hc
                exact h ⟨hc.1.symm, hc.2.symm⟩
              simp [hbeq, h]
          rw [Finset.sum_congr rfl (fun k _ => hcount k),
            Finset.sum_add_distrib, ih zs' (by simpa using hlen) hz']
          have hsum : ∑ k ∈ Finset.range K,
              (if w = a ∧ k = b then (1 : ℤ) else 0)
                = if w = a then (1 : ℤ) else 0 := by
            by_cases hw : w = a
            · subst hw
              simp only [eq_self_iff_true, true_and, if_true]
              rw [Finset.sum_ite_eq' (Finset.range K) b (fun _ => (1 : ℤ)),
                if_pos (Finset.mem_range.mpr hb)]
            · simp [hw]
          rw [hsum, List.count_cons]
          by_cases hw : w = a
          · subst hw
            simp
          · have hbeq2 : (a == w) = false := by simp [Ne.symm hw]
            simp [hbeq2, hw]

theorem initState_inv (corpus Z0 : List (List Nat)) (K : Nat)
    (hlenZ : Z0.length = corpus.length)
    (hdoclen : ∀ d, d < corpus.length →
      (Z0.getD d []).length = (corpus.getD d []).length)
    (hZbound : ∀ d, d < corpus.length →
      ∀ j, j < (corpus.getD d []).length → (Z0.getD d []).getD j 0 < K) :
    Inv corpus K (initState corpus Z0) := by
  have hrowbound : ∀ d, d < corpus.length → ∀ x ∈ Z0.getD d [], x < K := by
    intro d hd x hx
    obtain ⟨i, hilen, hig⟩ := List.mem_iff_getElem.mp hx
    have hi' : i < (corpus.getD d []).length := by
      rw [← hdoclen d hd]
      exact hilen
    have hgd : (Z0.getD d []).getD i 0 = x := by
      rw [List.getD_eq_getElem?_getD, List.getElem?_eq_getElem hilen]
      simpa using hig
    rw [← hgd]
    exact hZbound d hd i hi'
  refine ⟨hlenZ, hdoclen, ?_, ?_, ?_⟩
  · intro d j hd hj
    exact hZbound d hd j hj
  · intro d hd
    show ∑ k ∈ Finset.range K, topDocInit Z0 d k = _
    unfold topDocInit
    rw [sum_count_range (Z0.getD d []) K (hrowbound d hd), hdoclen d hd]
  · intro w
    show ∑ k ∈ Finset.range K, wordTopInit corpus Z0 w k = occurrences corpus w
    unfold wordTopInit occurrences
    rw [Finset.sum_comm]
    apply Finset.sum_congr rfl
    intro d hd
    exact sum_count_zip w K (corpus.getD d []) (Z0.getD d [])
      (hdoclen d (Finset.mem_range.mp hd))
      (hrowbound d (Finset.mem_range.mp hd))

/-- C3: starting from aggregated counts over any admissible initial
assignment and running any number of training iterations (with kernel
draws always inside [0, K)), at every iteration boundary each document's
top_doc row sums to the document's length and each word's word_top row
sums to the word's total occurrence count in the corpus. -/
theorem lda_count_invariants (corpus Z0 : List (List Nat)) (K n : Nat)
    (oracle : Nat → Nat → Nat → Nat)
    (hlenZ : Z0.length = corpus.length)
    (hdoclen : ∀ d, d < corpus.length →
      (Z0.getD d []).length = (corpus.getD d []).length)
    (hZbound : ∀ d, d < corpus.length →
      ∀ j, j < (corpus.getD d []).length → (Z0.getD d []).getD j 0 < K)
    (horacle : ∀ i, i < n → ∀ d, d < corpus.length →
      ∀ j, j < (corpus.getD d []).length → oracle i d j < K) :
    (∀ d, d < corpus.length →
      ∑ k ∈ Finset.range K,
          (sweeps corpus oracle n (initState corpus Z0)).top_doc d k
        = ((corpus.getD d []).length : ℤ)) ∧
    (∀ w, ∑ k ∈ Finset.range K,
        (sweeps corpus oracle n (initState corpus Z0)).word_top w k
      = occurrences corpus w) := by
  have h := sweeps_inv corpus K oracle n (initState corpus Z0)
    (fun i d j hi hd hj => horacle i hi d hd j hj)
    (initState_inv corpus Z0 K hlenZ hdoclen hZbound)
  exact ⟨h.2.2.2.1, h.2.2.2.2⟩

/-- C3 witness: the invariants after two iterations on a concrete
two-document corpus with K = 2 and a constant draw oracle. -/
theorem lda_count_invariants_witness :
    (([[1, 0], [0]] : List (List Nat)).length
        = ([[0, 1], [0]] : List (List Nat)).length) ∧
    (∀ d, d < ([[0, 1], [0]] : List (List Nat)).length →
      (([[1, 0], [0]] : List (List Nat)).getD d []).length
        = (([[0, 1], [0]] : List (List Nat)).getD d []).length) ∧
    (∀ d, d < ([[0, 1], [0]] : List (List Nat)).length →
      ∀ j, j < (([[0, 1], [0]] : List (List Nat)).getD d []).length →
        (([[1, 0], [0]] : List (List Nat)).getD d []).getD j 0 < 2) ∧
    (∑ k ∈ Finset.range 2,
        (sweeps [[0, 1], [0]] (fun _ _ _ => 0) 2
          (initState [[0, 1], [0]] [[1, 0], [0]])).top_doc 0 k
      = ((([[0, 1], [0]] : List (List Nat)).getD 0 []).length : ℤ)) ∧
    (∑ k ∈ Finset.range 2,
        (sweeps [[0, 1], [0]] (fun _ _ _ => 0) 2
          (initState [[0, 1], [0]] [[1, 0], [0]])).word_top 1 k
      = occurrences [[0, 1], [0]] 1) :=
  ⟨by decide, by decide, by decide,
    (lda_count_invariants [[0, 1], [0]] [[1, 0], [0]] 2 2 (fun _ _ _ => 0)
      (by decide) (by decide) (by decide) (by decide)).1 0 (by decide),
    (lda_count_invariants [[0, 1], [0]] [[1, 0], [0]] 2 2 (fun _ _ _ => 0)
      (by decide) (by decide) (by decide) (by decide)).2 1⟩

/-! ## The seeded single-worker trainer (§4.2, §6, §9)

Modelled from the spec: §9 requires process-level random state to become
"an explicit seeded generator instance passed into each worker … to
guarantee the determinism property in §8".  The generator is a linear
congruential generator over 31-bit machine words; the kernel draw is the
§4.2 cumulative-sum inversion of the unnormalized conditional against a
uniform draw.  With one worker there is no snapshot staleness: the kernel
reads the live counts. -/

/-- A step of the explicit seeded generator (31-bit LCG; the modulus is
the machine-word truncation). -/
def lcgNext (g : Nat) : Nat := (g * 1103515245 + 12345) % 2 ^ 31

/-- A uniform rational in [0, 1) from a generator state. -/
def lcgUniform (g : Nat) : ℚ := (g % 2 ^ 31 : Nat) / ((2 ^ 31 : Nat) : ℚ)

/-- Cumulative-sum inversion: the first index whose running prefix sum
exceeds the target. -/
def cumInv (target : ℚ) : ℚ → List ℚ → Nat
  | _, [] => 0
  | acc, p :: rest =>
      if target < acc + p then 0 else cumInv target (acc + p) rest + 1

/-- Draw from the categorical distribution with (unnormalized) weights
`ws` by cumulative-sum inversion against `u ∈ [0, 1)`; clamped to the
last topic. -/
def drawCat (ws : List ℚ) (u : ℚ) : Nat :=
  min (cumInv (u * ws.sum) 0 ws) (ws.length - 1)

/-- Modelled from the spec: the §4.2 unnormalized conditional for the
token at (d, j): `p_k ∝ (top_doc[d,k] + alpha[k]) · (word_top[w,k] +
beta) · inv_top_sums[k]`, with `inv_top_sums[k]` the reciprocal of
`Σ_w word_top[w,k] + V·beta` (§3). -/
def kernelWeights (corpus : List (List Nat)) (alpha : List ℚ) (beta : ℚ)
    (V K : Nat) (st : GState) (d j : Nat) : List ℚ :=
  let w := (corpus.getD d []).getD j 0
  (List.range K).map (fun k =>
    ((st.top_doc d k : ℚ) + alpha.getD k 0) *
    ((st.word_top w k : ℚ) + beta) *
    (1 / ((∑ w' ∈ Finset.range V, ((st.word_top w' k : ℚ))) + (V : ℚ) * beta)))

/-- Modelled from the spec: one §4.2 kernel application with the explicit
generator threaded through — decrement the counts of the current topic,
compute the conditional, draw the new topic by cumulative-sum inversion,
increment and write it back. -/
def tokenStepRng (corpus : List (List Nat)) (alpha : List ℚ) (beta : ℚ)
    (V K : Nat) (d j : Nat) : GState × Nat → GState × Nat :=
  fun sg =>
    let st := sg.1
    let zOld := (st.Z.getD d []).getD j 0
    let w := (corpus.getD d []).getD j 0
    let dec : GState :=
      { st with top_doc := bump st.top_doc d zOld (-1)
                word_top := bump st.word_top w zOld (-1) }
    let g' := lcgNext sg.2
    let u := lcgUniform g'
    let zNew := drawCat (kernelWeights corpus alpha beta V K dec d j) u
    (tokenStep corpus d j zNew st, g')

/-- One seeded pass over document `d`. -/
def docSweepRng (corpus : List (List Nat)) (alpha : List ℚ) (beta : ℚ)
    (V K : Nat) (d : Nat) (sg : GState × Nat) : GState × Nat :=
  (List.range (corpus.getD d []).length).foldl
    (fun p j => tokenStepRng corpus alpha beta V K d j p) sg

/-- One seeded sweep over every document. -/
def sweepRng (corpus : List (List Nat)) (alpha : List ℚ) (beta : ℚ)
    (V K : Nat) (sg : GState × Nat) : GState × Nat :=
  (List.range corpus.length).foldl
    (fun p d => docSweepRng corpus alpha beta V K d p) sg

/-- `n` seeded iterations. -/
def trainRng (corpus : List (List Nat)) (alpha : List ℚ) (beta : ℚ)
    (V K : Nat) : Nat → GState × Nat → GState × Nat
  | 0, p => p
  | n + 1, p => sweepRng corpus alpha beta V K
      (trainRng corpus alpha beta V K n p)

/-- Seeded initial assignment of one document: one generator step and one
topic per token. -/
def initDoc (K : Nat) : Nat → Nat → List Nat × Nat
  | 0, g => ([], g)
  | n + 1, g =>
      let g' := lcgNext g
      let p := initDoc K n g'
      ((g' % K) :: p.1, p.2)

/-- Seeded initial assignment: a random topic for every token (§4.4
`Initialized`). -/
def initZ (K : Nat) : List (List Nat) → Nat → List (List Nat) × Nat
  | [], g => ([], g)
  | doc :: rest, g =>
      let p := initDoc K doc.length g
      let q := initZ K rest p.2
      (p.1 :: q.1, q.2)

/-- Modelled from the spec: `train(n_iterations, random_seed)` with a
worker count of 1 (§6) — seed the generator, draw the initial Z, build
the counts by aggregation and run `n` sweeps. -/
def ldaTrain (corpus : List (List Nat)) (K V : Nat) (alpha : List ℚ)
    (beta : ℚ) (seed n : Nat) : GState × Nat :=
  let p := initZ K corpus seed
  trainRng corpus alpha beta V K n (initState corpus p.1, p.2)

/-- C4: two independent single-worker training runs over the same corpus
with the same seed and the same iteration count produce identical
topic-assignment arrays Z. -/
theorem ldaTrain_deterministic (corpus : List (List Nat)) (K V : Nat)
    (alpha : List ℚ) (beta : ℚ) (seed n : Nat) (r1 r2 : GState × Nat)
    (h1 : r1 = ldaTrain corpus K V alpha beta seed n)
    (h2 : r2 = ldaTrain corpus K V alpha beta seed n) :
    r1.1.Z = r2.1.Z := by
  rw [h1, h2]

/-- C4 witness: two runs at a concrete corpus, seed and iteration count. -/
theorem ldaTrain_deterministic_witness :
    (ldaTrain [[0], [1]] 2 2 [1, 1] 1 42 1
        = ldaTrain [[0], [1]] 2 2 [1, 1] 1 42 1) ∧
    (ldaTrain [[0], [1]] 2 2 [1, 1] 1 42 1).1.Z
        = (ldaTrain [[0], [1]] 2 2 [1, 1] 1 42 1).1.Z :=
  ⟨rfl, ldaTrain_deterministic [[0], [1]] 2 2 [1, 1] 1 42 1 _ _ rfl rfl⟩

end Vsm
